import Mathlib

/-!
Shallow embedding of the stockjournal portfolio accounting engine
(`portfolio_analytics.py` and `stock_journal.py`) and proofs about it.

Modelling conventions:
* A pandas DataFrame of transactions is a `List Transaction` in row order.
* Money and prices are exact rationals (`Rat`); share quantities are `Int`
  (the code negates the quantity of Sell rows before summing).
* Dates are `Nat` (only ordering and equality of dates matter).
* `DataFrame.round(2)` is `round2` (round to 2 decimal places).
* `groupby('Ticker')` iterates groups in ascending key order and preserves
  row order inside a group: we take the sorted deduplicated ticker list and
  `List.filter` for each group.  `sort_values('Date')` is a stable sort by
  date (`List.mergeSort`).
-/

namespace StockJournal

/-- One row of the transactions table: the columns the accounting engine
reads (`Date`, `Ticker`, `Transaction Type`, `Price`, `Quantity`, `Total`). -/
structure Transaction where
  date : Nat
  ticker : String
  transactionType : String
  price : Rat
  quantity : Int
  total : Rat
deriving DecidableEq

/-- One row of the holdings table produced by `get_current_holdings`. -/
structure Holding where
  ticker : String
  shares : Int
  averageCost : Rat
  totalCost : Rat
  currentValue : Rat
  profitLoss : Rat
  returnPct : Rat
deriving DecidableEq

/-- The dictionary returned by `get_portfolio_summary`. -/
structure PortfolioSummary where
  total_invested : Rat
  current_value : Rat
  profit_loss : Rat
  return_pct : Rat
  total_transactions : Nat
  total_buys : Nat
  total_sells : Nat
deriving DecidableEq

/-- One row of the report produced by `generate_profit_loss_report`. -/
structure ReportRow where
  ticker : String
  buyCost : Rat
  sellRevenue : Rat
  realizedProfitLoss : Rat
  unrealizedProfitLoss : Rat
  totalProfitLoss : Rat
deriving DecidableEq

/-- Rounding to 2 decimal places, as `DataFrame.round(2)` does at output. -/
def round2 (x : Rat) : Rat := (round (x * 100) : Rat) / 100

/-- The signed quantity of a row after the code negates Sell quantities
(`holdings.loc[... == 'Sell', 'Quantity'] *= -1`). -/
def signedQuantity (t : Transaction) : Int :=
  if t.transactionType = "Sell" then -t.quantity else t.quantity

/-- Sum of signed quantities of a list of rows (`group['Quantity'].sum()`). -/
def sumQuantities (l : List Transaction) : Int := (l.map signedQuantity).sum

/-- The rows of one ticker group, in original row order. -/
def tickerGroup (l : List Transaction) (tk : String) : List Transaction :=
  l.filter (fun t => t.ticker = tk)

/-- Net shares of a ticker: Buy quantities minus Sell quantities. -/
def netShares (l : List Transaction) (tk : String) : Int :=
  sumQuantities (tickerGroup l tk)

/-- Lexicographic comparison of character lists by code point, the key order
used by `groupby` over string keys. -/
def charListLe : List Char → List Char → Bool
  | [], _ => true
  | _ :: _, [] => false
  | c :: cs, d :: ds =>
    if c.val < d.val then true
    else if d.val < c.val then false
    else charListLe cs ds

/-- Lexicographic comparison of strings by code point. -/
def strLe (a b : String) : Bool := charListLe a.data b.data

/-- The distinct tickers of the ledger in ascending order: the group keys of
`groupby('Ticker')`. -/
def tickersOf (l : List Transaction) : List String :=
  ((l.map (fun t => t.ticker)).dedup).mergeSort strLe

/-- The Buy rows of one ticker (`group[group['Transaction Type'] == 'Buy']`). -/
def buysOf (l : List Transaction) (tk : String) : List Transaction :=
  (tickerGroup l tk).filter (fun t => t.transactionType = "Buy")

/-- The Sell rows of one ticker. -/
def sellsOf (l : List Transaction) (tk : String) : List Transaction :=
  (tickerGroup l tk).filter (fun t => t.transactionType = "Sell")

/-- Sum of `Total` over a ticker's Buy rows (`buys['Total'].sum()`). -/
def buyCostOf (l : List Transaction) (tk : String) : Rat :=
  ((buysOf l tk).map (fun t => t.total)).sum

/-- Sum of `Quantity` over a ticker's Buy rows. -/
def boughtSharesOf (l : List Transaction) (tk : String) : Int :=
  ((buysOf l tk).map (fun t => t.quantity)).sum

/-- Sum of `|Total|` over a ticker's Sell rows (`abs(sells['Total']).sum()`). -/
def sellRevenueOf (l : List Transaction) (tk : String) : Rat :=
  ((sellsOf l tk).map (fun t => |t.total|)).sum

/-- Sum of `Quantity` over a ticker's Sell rows. -/
def soldSharesOf (l : List Transaction) (tk : String) : Int :=
  ((sellsOf l tk).map (fun t => t.quantity)).sum

/-- Average buy cost per share: `buy_cost / total_bought_shares` when any
shares were bought, else `0` (both `get_current_holdings` and
`generate_profit_loss_report` compute it this way). -/
def avgBuyCostOf (l : List Transaction) (tk : String) : Rat :=
  if 0 < boughtSharesOf l tk then buyCostOf l tk / ((boughtSharesOf l tk : Int) : Rat) else 0

/-- The holdings row `get_current_holdings` builds for one ticker group
(before the final `round(2)` formatting pass). -/
def holdingRow (group : List Transaction) (tk : String) : Holding :=
  let shares := sumQuantities group
  let buys := group.filter (fun t => t.transactionType = "Buy")
  let totalBuyCost := (buys.map (fun t => t.total)).sum
  let totalBoughtShares := (buys.map (fun t => t.quantity)).sum
  let avgCost := if 0 < totalBoughtShares then totalBuyCost / ((totalBoughtShares : Int) : Rat) else 0
  let lastPrice := ((group.getLast?).map (fun t => t.price)).getD 0
  let currentValue := (shares : Rat) * lastPrice
  let profitLoss := currentValue - avgCost * (shares : Rat)
  { ticker := tk
    shares := shares
    averageCost := avgCost
    totalCost := avgCost * (shares : Rat)
    currentValue := currentValue
    profitLoss := profitLoss
    returnPct :=
      if 0 < avgCost * (shares : Rat) then profitLoss / (avgCost * (shares : Rat)) * 100 else 0 }

/-- The holdings list before the final rounding pass: one row per ticker
group whose net share count is positive (`if shares <= 0: continue`). -/
def holdingsRaw (l : List Transaction) : List Holding :=
  (tickersOf l).filterMap (fun tk =>
    if 0 < netShares l tk then some (holdingRow (tickerGroup l tk) tk) else none)

/-- The final formatting pass of `get_current_holdings`: round the five
monetary and percentage columns to 2 decimals. -/
def roundHolding (h : Holding) : Holding :=
  { h with
    averageCost := round2 h.averageCost
    totalCost := round2 h.totalCost
    currentValue := round2 h.currentValue
    profitLoss := round2 h.profitLoss
    returnPct := round2 h.returnPct }

/-- `get_current_holdings`: the holdings table derived from the ledger. -/
def get_current_holdings (l : List Transaction) : List Holding :=
  (holdingsRaw l).map roundHolding

/-- `get_portfolio_summary`: portfolio-wide totals over the holdings table,
plus transaction counts taken from the ledger itself. -/
def get_portfolio_summary (l : List Transaction) : PortfolioSummary :=
  if l = [] then
    { total_invested := 0, current_value := 0, profit_loss := 0, return_pct := 0
      total_transactions := 0, total_buys := 0, total_sells := 0 }
  else
    let holdings := get_current_holdings l
    let total_invested := (holdings.map (fun h => h.totalCost)).sum
    let current_value := (holdings.map (fun h => h.currentValue)).sum
    let profit_loss := current_value - total_invested
    { total_invested := total_invested
      current_value := current_value
      profit_loss := profit_loss
      return_pct := if 0 < total_invested then profit_loss / total_invested * 100 else 0
      total_transactions := l.length
      total_buys := (l.filter (fun t => t.transactionType = "Buy")).length
      total_sells := (l.filter (fun t => t.transactionType = "Sell")).length }

/-- `sort_values('Date')`: stable sort of the ledger by date. -/
def sortByDate (l : List Transaction) : List Transaction :=
  l.mergeSort (fun a b => decide (a.date ≤ b.date))

/-- Sum of the `Current Value` column of the holdings table
(`holdings['Current Value'].sum()`, `0` when there are no holdings). -/
def holdingsValue (l : List Transaction) : Rat :=
  ((get_current_holdings l).map (fun h => h.currentValue)).sum

/-- `calculate_historical_performance`: one `(date, portfolio value)` point
per distinct date of the date-sorted ledger, each valued on the sub-ledger
of rows with date up to that point. -/
def calculate_historical_performance (l : List Transaction) : List (Nat × Rat) :=
  (((sortByDate l).map (fun t => t.date)).dedup).map
    (fun d => (d, holdingsValue ((sortByDate l).filter (fun t => decide (t.date ≤ d)))))

/-- The report row `generate_profit_loss_report` builds for one ticker
(before sorting and rounding). -/
def reportRow (l : List Transaction) (currentHoldings : List Holding) (tk : String) : ReportRow :=
  let buyCost := buyCostOf l tk
  let sellRevenue := sellRevenueOf l tk
  let totalSoldShares := soldSharesOf l tk
  let avgCostPerShare := avgBuyCostOf l tk
  let costBasisSold :=
    if 0 < avgCostPerShare ∧ 0 < totalSoldShares then avgCostPerShare * (totalSoldShares : Rat)
    else 0
  let realized := sellRevenue - costBasisSold
  let unrealized :=
    ((currentHoldings.find? (fun h => h.ticker = tk)).map (fun h => h.profitLoss)).getD 0
  { ticker := tk
    buyCost := buyCost
    sellRevenue := sellRevenue
    realizedProfitLoss := realized
    unrealizedProfitLoss := unrealized
    totalProfitLoss := realized + unrealized }

/-- The final rounding pass over one report row. -/
def roundReportRow (r : ReportRow) : ReportRow :=
  { r with
    buyCost := round2 r.buyCost
    sellRevenue := round2 r.sellRevenue
    realizedProfitLoss := round2 r.realizedProfitLoss
    unrealizedProfitLoss := round2 r.unrealizedProfitLoss
    totalProfitLoss := round2 r.totalProfitLoss }

/-- `generate_profit_loss_report`: one row per ticker ever transacted,
sorted descending by total profit/loss, monetary columns rounded. -/
def generate_profit_loss_report (l : List Transaction) : List ReportRow :=
  (((tickersOf l).map (reportRow l (get_current_holdings l))).mergeSort
      (fun a b => decide (b.totalProfitLoss ≤ a.totalProfitLoss))).map roundReportRow

/-- The holdings DataFrame as `validate_transaction` receives it: its rows,
plus whether it has a `Ticker` column at all.  `get_current_holdings`
returns a frame with named columns for the empty ledger and whenever the
holdings list is non-empty, but `pd.DataFrame([])` — the result for a
non-empty ledger in which no ticker has positive net shares — has no
columns, and any column access on it raises `KeyError`. -/
structure HoldingsFrame where
  rows : List Holding
  hasTickerColumn : Bool
deriving DecidableEq

/-- The frame produced by `get_current_holdings` for a ledger: its rows
together with the presence of the `Ticker` column. -/
def holdingsFrame (l : List Transaction) : HoldingsFrame :=
  { rows := get_current_holdings l
    hasTickerColumn := decide (l = []) || !(holdingsRaw l).isEmpty }

/-- `validate_transaction` from `stock_journal.py`: returns
`some (is_valid, error_message)`, or `none` for the `KeyError` raised at
`current_holdings['Ticker']` when the frame has no `Ticker` column. -/
def validate_transaction (transaction : Transaction) (current_holdings : HoldingsFrame) :
    Option (Bool × String) :=
  if transaction.ticker = "" then some (false, "Ticker symbol is required.")
  else if transaction.quantity ≤ 0 then some (false, "Quantity must be greater than zero.")
  else if transaction.transactionType = "Sell" then
    if current_holdings.hasTickerColumn then
      match current_holdings.rows.find? (fun h => h.ticker = transaction.ticker) with
      | none =>
          some (false, "Cannot sell " ++ transaction.ticker ++
            ". You do not own any shares of this stock.")
      | some h =>
          if h.shares < transaction.quantity then
            some (false, "Cannot sell " ++ toString transaction.quantity ++ " shares of " ++
              transaction.ticker ++ ". You only own " ++ toString h.shares ++ " shares.")
          else some (true, "")
    else none
  else some (true, "")

/-- Well-formed ledgers per the data model: positive quantity and price, the
type is `Buy` or `Sell`, and `Total` is `price × quantity`, negated for
sells. -/
def WellFormed (l : List Transaction) : Prop :=
  ∀ t ∈ l, 0 < t.quantity ∧ 0 < t.price ∧
    ((t.transactionType = "Buy" ∧ t.total = t.price * (t.quantity : Rat)) ∨
     (t.transactionType = "Sell" ∧ t.total = -(t.price * (t.quantity : Rat))))

instance (l : List Transaction) : Decidable (WellFormed l) := by
  unfold WellFormed
  infer_instance

/-! Concrete ledgers used to instantiate the theorems. -/

/-- The worked example of the specification: buy 10 AAPL at 150, sell 3 at
155. -/
def ex1 : List Transaction :=
  [{ date := 1, ticker := "AAPL", transactionType := "Buy", price := 150, quantity := 10,
     total := 1500 },
   { date := 2, ticker := "AAPL", transactionType := "Sell", price := 155, quantity := 3,
     total := -465 }]

/-- A ledger whose rows are not in date order: the later-dated buy at price
10 is listed first. -/
def exC4 : List Transaction :=
  [{ date := 2, ticker := "A", transactionType := "Buy", price := 10, quantity := 1,
     total := 10 },
   { date := 1, ticker := "A", transactionType := "Buy", price := 20, quantity := 1,
     total := 20 }]

/-- The ledger `exC4` with its rows in date order. -/
def exC4s : List Transaction :=
  [{ date := 1, ticker := "A", transactionType := "Buy", price := 20, quantity := 1,
     total := 20 },
   { date := 2, ticker := "A", transactionType := "Buy", price := 10, quantity := 1,
     total := 10 }]

/-- A position fully exited at a profit: buy 10 at 150, sell all 10 at 155. -/
def exC5 : List Transaction :=
  [{ date := 1, ticker := "A", transactionType := "Buy", price := 150, quantity := 10,
     total := 1500 },
   { date := 2, ticker := "A", transactionType := "Sell", price := 155, quantity := 10,
     total := -1550 }]

/-- Two tickers whose exact cost bases (2/3 each) round to 0.67: the sum of
the rounded values (1.34) differs from the rounded exact sum (1.33). -/
def exC9 : List Transaction :=
  [{ date := 1, ticker := "A", transactionType := "Buy", price := 1 / 3, quantity := 3,
     total := 1 },
   { date := 2, ticker := "A", transactionType := "Sell", price := 1 / 3, quantity := 1,
     total := -(1 / 3) },
   { date := 1, ticker := "B", transactionType := "Buy", price := 1 / 3, quantity := 3,
     total := 1 },
   { date := 2, ticker := "B", transactionType := "Sell", price := 1 / 3, quantity := 1,
     total := -(1 / 3) }]

/-- Buy one share, then sell it at a profit: after the sale the portfolio
holds nothing, though the sale realized a gain. -/
def exC10 : List Transaction :=
  [{ date := 1, ticker := "A", transactionType := "Buy", price := 10, quantity := 1,
     total := 10 },
   { date := 2, ticker := "A", transactionType := "Sell", price := 12, quantity := 1,
     total := -12 }]

/-- A Buy proposal with price 0 and otherwise valid fields. -/
def zeroPriceTxn : Transaction :=
  { date := 1, ticker := "AAPL", transactionType := "Buy", price := 0, quantity := 1, total := 0 }

/-- A well-formed proposal to sell 1 share of A, made after `exC10` fully
exited the position. -/
def sellAfterExit : Transaction :=
  { date := 3, ticker := "A", transactionType := "Sell", price := 12, quantity := 1,
    total := -12 }

/-- The holdings row computed from `ex1`, after rounding: 7 shares at
average cost 150, worth 1085, return 3.33%. -/
def hAAPL : Holding :=
  { ticker := "AAPL", shares := 7, averageCost := 150, totalCost := 1050, currentValue := 1085,
    profitLoss := 35, returnPct := 333 / 100 }

/-- The holdings row computed from `ex1` before rounding. -/
def hAAPLraw : Holding :=
  { ticker := "AAPL", shares := 7, averageCost := 150, totalCost := 1050, currentValue := 1085,
    profitLoss := 35, returnPct := 10 / 3 }

/-- The report row computed from `exC5`: realized gain 50, nothing held. -/
def rExited : ReportRow :=
  { ticker := "A", buyCost := 1500, sellRevenue := 1550, realizedProfitLoss := 50,
    unrealizedProfitLoss := 0, totalProfitLoss := 50 }

/-! Helper lemmas about the embedding. -/

lemma holdingRow_ticker (g : List Transaction) (tk : String) : (holdingRow g tk).ticker = tk := rfl

lemma holdingRow_shares (g : List Transaction) (tk : String) :
    (holdingRow g tk).shares = sumQuantities g := rfl

lemma holdingRow_averageCost (l : List Transaction) (tk : String) :
    (holdingRow (tickerGroup l tk) tk).averageCost = avgBuyCostOf l tk := rfl

lemma holdingRow_totalCost (l : List Transaction) (tk : String) :
    (holdingRow (tickerGroup l tk) tk).totalCost = avgBuyCostOf l tk * ((netShares l tk : Int) : Rat) :=
  rfl

lemma holdingRow_profitLoss (l : List Transaction) (tk : String) :
    (holdingRow (tickerGroup l tk) tk).profitLoss =
      (holdingRow (tickerGroup l tk) tk).currentValue -
        avgBuyCostOf l tk * ((netShares l tk : Int) : Rat) := rfl

lemma holdingRow_returnPct (l : List Transaction) (tk : String) :
    (holdingRow (tickerGroup l tk) tk).returnPct =
      if 0 < avgBuyCostOf l tk * ((netShares l tk : Int) : Rat) then
        (holdingRow (tickerGroup l tk) tk).profitLoss /
          (avgBuyCostOf l tk * ((netShares l tk : Int) : Rat)) * 100
      else 0 := rfl

lemma roundHolding_ticker (h : Holding) : (roundHolding h).ticker = h.ticker := rfl

lemma roundHolding_shares (h : Holding) : (roundHolding h).shares = h.shares := rfl

lemma mem_tickersOf {l : List Transaction} {tk : String} :
    tk ∈ tickersOf l ↔ ∃ t ∈ l, t.ticker = tk := by
  simp [tickersOf, List.mem_dedup]

lemma nodup_tickersOf (l : List Transaction) : (tickersOf l).Nodup :=
  (List.mergeSort_perm _ _).symm.nodup (List.nodup_dedup _)

lemma mem_holdingsRaw {l : List Transaction} {h : Holding} :
    h ∈ holdingsRaw l ↔
      ∃ tk, tk ∈ tickersOf l ∧ 0 < netShares l tk ∧ h = holdingRow (tickerGroup l tk) tk := by
  unfold holdingsRaw
  rw [List.mem_filterMap]
  constructor
  · rintro ⟨tk, htk, hsome⟩
    by_cases hc : 0 < netShares l tk
    · rw [if_pos hc] at hsome
      exact ⟨tk, htk, hc, (Option.some.inj hsome).symm⟩
    · rw [if_neg hc] at hsome
      cases hsome
  · rintro ⟨tk, htk, hc, rfl⟩
    exact ⟨tk, htk, by rw [if_pos hc]⟩

lemma tickerGroup_ne_nil_of_netShares_pos {l : List Transaction} {tk : String}
    (h : 0 < netShares l tk) : tickerGroup l tk ≠ [] := by
  intro hnil
  rw [netShares, hnil] at h
  simp [sumQuantities] at h

lemma mem_tickersOf_of_netShares_pos {l : List Transaction} {tk : String}
    (h : 0 < netShares l tk) : tk ∈ tickersOf l := by
  rcases List.exists_mem_of_ne_nil _ (tickerGroup_ne_nil_of_netShares_pos h) with ⟨t, ht⟩
  rcases List.mem_filter.mp ht with ⟨htl, htk⟩
  exact mem_tickersOf.mpr ⟨t, htl, by simpa using htk⟩

lemma mem_get_current_holdings {l : List Transaction} {h : Holding} :
    h ∈ get_current_holdings l ↔ ∃ h0 ∈ holdingsRaw l, h = roundHolding h0 := by
  simp only [get_current_holdings, List.mem_map]
  constructor
  · rintro ⟨h0, hm, rfl⟩
    exact ⟨h0, hm, rfl⟩
  · rintro ⟨h0, hm, rfl⟩
    exact ⟨h0, hm, rfl⟩

lemma netShares_pos_of_mem_holdingsRaw {l : List Transaction} {h : Holding}
    (hm : h ∈ holdingsRaw l) : 0 < netShares l h.ticker := by
  rcases mem_holdingsRaw.mp hm with ⟨tk, _, hpos, rfl⟩
  simpa [holdingRow_ticker] using hpos

lemma shares_eq_netShares_of_mem_holdingsRaw {l : List Transaction} {h : Holding}
    (hm : h ∈ holdingsRaw l) : h.shares = netShares l h.ticker := by
  rcases mem_holdingsRaw.mp hm with ⟨tk, _, _, rfl⟩
  rfl

lemma map_ticker_filterMap (l : List Transaction) (tks : List String) :
    ((tks.filterMap (fun tk =>
        if 0 < netShares l tk then some (holdingRow (tickerGroup l tk) tk) else none)).map
      (fun h => h.ticker)) = tks.filter (fun tk => decide (0 < netShares l tk)) := by
  induction tks with
  | nil => rfl
  | cons a as ih =>
    by_cases hc : 0 < netShares l a <;>
      simp [List.filterMap_cons, List.filter_cons, hc, ih, holdingRow_ticker]

lemma map_ticker_holdingsRaw (l : List Transaction) :
    (holdingsRaw l).map (fun h => h.ticker) =
      (tickersOf l).filter (fun tk => decide (0 < netShares l tk)) :=
  map_ticker_filterMap l (tickersOf l)

lemma map_ticker_get_current_holdings (l : List Transaction) :
    (get_current_holdings l).map (fun h => h.ticker) =
      (holdingsRaw l).map (fun h => h.ticker) := by
  rw [get_current_holdings, List.map_map]
  rfl

lemma nodup_tickers_get_current_holdings (l : List Transaction) :
    ((get_current_holdings l).map (fun h => h.ticker)).Nodup := by
  rw [map_ticker_get_current_holdings, map_ticker_holdingsRaw]
  exact (nodup_tickersOf l).filter _

lemma mem_buysOf {l : List Transaction} {tk : String} {t : Transaction} (ht : t ∈ buysOf l tk) :
    t ∈ l ∧ t.ticker = tk ∧ t.transactionType = "Buy" := by
  rcases List.mem_filter.mp ht with ⟨ht1, hb⟩
  rcases List.mem_filter.mp ht1 with ⟨htl, htk⟩
  exact ⟨htl, by simpa using htk, by simpa using hb⟩

lemma mem_sellsOf {l : List Transaction} {tk : String} {t : Transaction} (ht : t ∈ sellsOf l tk) :
    t ∈ l ∧ t.ticker = tk ∧ t.transactionType = "Sell" := by
  rcases List.mem_filter.mp ht with ⟨ht1, hb⟩
  rcases List.mem_filter.mp ht1 with ⟨htl, htk⟩
  exact ⟨htl, by simpa using htk, by simpa using hb⟩

lemma total_pos_of_buy {l : List Transaction} {t : Transaction} (hwf : WellFormed l)
    (ht : t ∈ l) (hb : t.transactionType = "Buy") : 0 < t.total := by
  rcases hwf t ht with ⟨hq, hp, hcase⟩
  rcases hcase with ⟨_, htot⟩ | ⟨hsell, _⟩
  · rw [htot]
    exact mul_pos hp (by exact_mod_cast hq)
  · rw [hb] at hsell
    exact absurd hsell (by decide)

lemma buyCostOf_nonneg {l : List Transaction} {tk : String} (hwf : WellFormed l) :
    0 ≤ buyCostOf l tk := by
  apply List.sum_nonneg
  intro x hx
  rcases List.mem_map.mp hx with ⟨t, ht, rfl⟩
  rcases mem_buysOf ht with ⟨htl, _, hb⟩
  exact le_of_lt (total_pos_of_buy hwf htl hb)

lemma boughtSharesOf_pos {l : List Transaction} {tk : String} (hwf : WellFormed l)
    (hb : buysOf l tk ≠ []) : 0 < boughtSharesOf l tk := by
  apply List.sum_pos
  · intro x hx
    rcases List.mem_map.mp hx with ⟨t, ht, rfl⟩
    exact (hwf t (mem_buysOf ht).1).1
  · intro hnil
    exact hb (List.map_eq_nil_iff.mp hnil)

lemma soldSharesOf_nonneg {l : List Transaction} {tk : String} (hwf : WellFormed l) :
    0 ≤ soldSharesOf l tk := by
  apply List.sum_nonneg
  intro x hx
  rcases List.mem_map.mp hx with ⟨t, ht, rfl⟩
  exact le_of_lt (hwf t (mem_sellsOf ht).1).1

lemma avgBuyCostOf_nonneg {l : List Transaction} {tk : String} (hwf : WellFormed l) :
    0 ≤ avgBuyCostOf l tk := by
  unfold avgBuyCostOf
  by_cases hq : 0 < boughtSharesOf l tk
  · rw [if_pos hq]
    exact div_nonneg (buyCostOf_nonneg hwf) (le_of_lt (by exact_mod_cast hq))
  · rw [if_neg hq]

lemma round2_nonneg {x : Rat} (hx : 0 ≤ x) : 0 ≤ round2 x := by
  unfold round2
  apply div_nonneg _ (by norm_num)
  have h0 : (0 : Int) ≤ round (x * 100) := by
    rw [round_eq]
    apply Int.le_floor.mpr
    have : (0 : Rat) ≤ x * 100 := mul_nonneg hx (by norm_num)
    push_cast
    linarith
  exact_mod_cast h0

lemma round2_zero : round2 0 = 0 := by
  unfold round2
  norm_num

/-! Claim theorems. -/

/-- C1: a ticker appears in the Holdings Calculator's output if and only if
its net shares (Buy quantities minus Sell quantities) are strictly
positive, and each included row's `Shares` field is exactly that net
quantity. -/
theorem holdings_iff_positive_net (l : List Transaction) (tk : String) :
    ((∃ h ∈ get_current_holdings l, h.ticker = tk) ↔ 0 < netShares l tk) ∧
      (∀ h ∈ get_current_holdings l, h.shares = netShares l h.ticker) := by
  constructor
  · constructor
    · rintro ⟨h, hm, rfl⟩
      rcases mem_get_current_holdings.mp hm with ⟨h0, h0m, rfl⟩
      rw [roundHolding_ticker]
      exact netShares_pos_of_mem_holdingsRaw h0m
    · intro hpos
      have htk := mem_tickersOf_of_netShares_pos hpos
      refine ⟨roundHolding (holdingRow (tickerGroup l tk) tk), ?_, rfl⟩
      exact mem_get_current_holdings.mpr ⟨_, mem_holdingsRaw.mpr ⟨tk, htk, hpos, rfl⟩, rfl⟩
  · intro h hm
    rcases mem_get_current_holdings.mp hm with ⟨h0, h0m, rfl⟩
    rw [roundHolding_shares, roundHolding_ticker]
    exact shares_eq_netShares_of_mem_holdingsRaw h0m

unseal Rat.add Rat.mul Rat.inv Rat.sub List.merge List.mergeSort in
/-- C1 witness: on the spec's worked example, AAPL appears and holds
7 = 10 − 3 shares. -/
theorem holdings_iff_positive_net_witness :
    (∃ h ∈ get_current_holdings ex1, h.ticker = "AAPL") ∧
      hAAPL.shares = netShares ex1 hAAPL.ticker :=
  ⟨(holdings_iff_positive_net ex1 "AAPL").1.mpr (by decide),
   (holdings_iff_positive_net ex1 "AAPL").2 hAAPL (by decide)⟩

/-- C2: in the holdings rows (before the output rounding pass), the average
cost is the Buy-only weighted average `sum(Buy.Total) / sum(Buy.Quantity)`
(0 when there are no buys, sells never enter), and the total cost is
average cost times the net share count. -/
theorem average_cost_and_total_cost (l : List Transaction) (hwf : WellFormed l) :
    ∀ h ∈ holdingsRaw l,
      (h.averageCost =
        if buysOf l h.ticker = [] then 0
        else buyCostOf l h.ticker / ((boughtSharesOf l h.ticker : Int) : Rat)) ∧
      h.totalCost = h.averageCost * ((h.shares : Int) : Rat) := by
  intro h hm
  rcases mem_holdingsRaw.mp hm with ⟨tk, htk, hpos, rfl⟩
  rw [holdingRow_ticker]
  constructor
  · rw [holdingRow_averageCost, avgBuyCostOf]
    by_cases hb : buysOf l tk = []
    · rw [if_pos hb]
      have hz : boughtSharesOf l tk = 0 := by
        rw [boughtSharesOf, hb]
        rfl
      rw [hz]
      norm_num
    · rw [if_neg hb, if_pos (boughtSharesOf_pos hwf hb)]
  · rfl

unseal Rat.add Rat.mul Rat.inv Rat.sub List.merge List.mergeSort in
/-- C2 witness: on the spec's worked example the raw AAPL row has average
cost 1500 / 10 = 150 and total cost 150 × 7 = 1050. -/
theorem average_cost_and_total_cost_witness :
    WellFormed ex1 ∧
      ((hAAPLraw.averageCost =
          if buysOf ex1 hAAPLraw.ticker = [] then 0
          else buyCostOf ex1 hAAPLraw.ticker / ((boughtSharesOf ex1 hAAPLraw.ticker : Int) : Rat)) ∧
        hAAPLraw.totalCost = hAAPLraw.averageCost * ((hAAPLraw.shares : Int) : Rat)) :=
  ⟨by decide, average_cost_and_total_cost ex1 (by decide) hAAPLraw (by decide)⟩

lemma pairwise_date_sortByDate (l : List Transaction) :
    List.Pairwise (fun a b : Transaction => a.date ≤ b.date) (sortByDate l) := by
  have h := @List.sorted_mergeSort Transaction (fun a b => decide (a.date ≤ b.date))
    (fun a b c h1 h2 => by
      rw [decide_eq_true_eq] at h1 h2 ⊢
      exact le_trans h1 h2)
    (fun a b => by rcases Nat.le_total a.date b.date with h | h <;> simp [h])
    l
  exact h.imp (fun hab => of_decide_eq_true hab)

lemma le_getLast_of_pairwise_le : ∀ {xs : List Nat}, List.Pairwise (· ≤ ·) xs →
    ∀ (h : xs ≠ []) (x : Nat), x ∈ xs → x ≤ xs.getLast h := by
  intro xs
  induction xs with
  | nil => intro _ h; exact absurd rfl h
  | cons a as ih =>
    intro hp h x hx
    rcases List.pairwise_cons.mp hp with ⟨hall, htail⟩
    cases as with
    | nil =>
      have hxa : x = a := by simpa using hx
      subst hxa
      simp [List.getLast]
    | cons b bs =>
      rw [List.getLast_cons (by simp : (b :: bs) ≠ [])]
      rcases List.mem_cons.mp hx with hxa | hxs
      · subst hxa
        exact hall _ (List.getLast_mem _)
      · exact ih htail (by simp) x hxs

/-- C3: the Historical Performance Reconstructor returns one point per
distinct date (strictly ascending dates, exactly the dates present in the
ledger), each point valued as the Holdings Calculator's total current value
over the chronologically ordered sub-ledger of rows dated up to that point;
an empty ledger gives an empty series. -/
theorem historical_performance_points (l : List Transaction) :
    (l = [] → calculate_historical_performance l = []) ∧
      List.Pairwise (· < ·) ((calculate_historical_performance l).map Prod.fst) ∧
      (∀ d : Nat,
        d ∈ (calculate_historical_performance l).map Prod.fst ↔ d ∈ l.map (fun t => t.date)) ∧
      (∀ p ∈ calculate_historical_performance l,
        p.2 = holdingsValue ((sortByDate l).filter (fun t => decide (t.date ≤ p.1)))) := by
  have hmapfst :
      (calculate_historical_performance l).map Prod.fst =
        ((sortByDate l).map (fun t => t.date)).dedup := by
    unfold calculate_historical_performance
    rw [List.map_map]
    exact List.map_id' _
  refine ⟨?_, ?_, ?_, ?_⟩
  · intro hl
    subst hl
    simp [calculate_historical_performance, sortByDate]
  · rw [hmapfst]
    have h1 : List.Pairwise (· ≤ ·) ((sortByDate l).map (fun t => t.date)) :=
      List.pairwise_map.mpr (pairwise_date_sortByDate l)
    exact List.Sorted.lt_of_le (List.Pairwise.sublist (List.dedup_sublist _) h1)
      (List.nodup_dedup _)
  · intro d
    rw [hmapfst, List.mem_dedup]
    simp [sortByDate, List.mem_map]
  · intro p hp
    unfold calculate_historical_performance at hp
    rcases List.mem_map.mp hp with ⟨d, _, rfl⟩
    rfl

unseal Rat.add Rat.mul Rat.inv Rat.sub List.merge List.mergeSort in
/-- C3 witness: on the spec's worked example the point dated 2 is valued on
the whole ledger, at 7 × 155 = 1085. -/
theorem historical_performance_points_witness :
    (1085 : Rat) = holdingsValue ((sortByDate ex1).filter (fun t => decide (t.date ≤ 2))) :=
  (historical_performance_points ex1).2.2.2 ((2 : Nat), (1085 : Rat)) (by decide)

unseal Rat.add Rat.mul Rat.inv Rat.sub List.merge List.mergeSort in
/-- C4 counterexample: on a ledger whose rows are not in date order the last
history point (20) differs from the summary's current value (40), because
`calculate_historical_performance` sorts by date before taking the last
price per ticker while `get_portfolio_summary` uses the ledger as given. -/
theorem historical_last_point_ne_summary_unsorted :
    ((calculate_historical_performance exC4).getLast?).map Prod.snd ≠
      some ((get_portfolio_summary exC4).current_value) := by decide

/-- C4 as amended: for a non-empty ledger whose rows are already in
nondecreasing date order, the last history point equals the Portfolio
Summary Aggregator's current value on the full ledger. -/
theorem historical_last_point_eq_summary_of_sorted (l : List Transaction) (hne : l ≠ [])
    (hsorted : List.Pairwise (fun a b : Transaction => a.date ≤ b.date) l) :
    ((calculate_historical_performance l).getLast?).map Prod.snd =
      some ((get_portfolio_summary l).current_value) := by
  have hs : sortByDate l = l :=
    List.mergeSort_of_sorted (hsorted.imp (fun hab => decide_eq_true hab))
  have hperf : calculate_historical_performance l =
      ((l.map (fun t => t.date)).dedup).map
        (fun d => (d, holdingsValue (l.filter (fun t => decide (t.date ≤ d))))) := by
    unfold calculate_historical_performance
    rw [hs]
  have hdne : (l.map (fun t => t.date)).dedup ≠ [] := by
    rcases List.exists_mem_of_ne_nil l hne with ⟨t, ht⟩
    exact List.ne_nil_of_mem (List.mem_dedup.mpr (List.mem_map.mpr ⟨t, ht, rfl⟩))
  have hpairdates : List.Pairwise (· ≤ ·) ((l.map (fun t => t.date)).dedup) :=
    List.Pairwise.sublist (List.dedup_sublist _) (List.pairwise_map.mpr hsorted)
  have hdom : ∀ t ∈ l, t.date ≤ ((l.map (fun t => t.date)).dedup).getLast hdne := by
    intro t ht
    exact le_getLast_of_pairwise_le hpairdates hdne t.date
      (List.mem_dedup.mpr (List.mem_map.mpr ⟨t, ht, rfl⟩))
  have hfilter :
      l.filter
        (fun t => decide (t.date ≤ ((l.map (fun t => t.date)).dedup).getLast hdne)) = l :=
    List.filter_eq_self.mpr (fun t ht => decide_eq_true (hdom t ht))
  rw [hperf, List.getLast?_map, List.getLast?_eq_getLast _ hdne]
  have hsum : (get_portfolio_summary l).current_value =
      ((get_current_holdings l).map (fun h => h.currentValue)).sum := by
    unfold get_portfolio_summary
    rw [if_neg hne]
  rw [hsum]
  simp only [Option.map_some']
  rw [hfilter]
  rfl

unseal Rat.add Rat.mul Rat.inv Rat.sub List.merge List.mergeSort in
/-- C4 witness: on the date-ordered ledger `exC4s` both sides are 20. -/
theorem historical_last_point_eq_summary_of_sorted_witness :
    exC4s ≠ [] ∧ List.Pairwise (fun a b : Transaction => a.date ≤ b.date) exC4s ∧
      ((calculate_historical_performance exC4s).getLast?).map Prod.snd =
        some ((get_portfolio_summary exC4s).current_value) :=
  ⟨by decide, by decide,
   historical_last_point_eq_summary_of_sorted exC4s (by decide) (by decide)⟩

lemma find?_get_current_holdings_eq_none {l : List Transaction} {tk : String}
    (h : netShares l tk ≤ 0) :
    (get_current_holdings l).find? (fun h0 => h0.ticker = tk) = none := by
  rw [List.find?_eq_none]
  intro x hx hdec
  rcases mem_get_current_holdings.mp hx with ⟨h0, h0m, rfl⟩
  have hpos := netShares_pos_of_mem_holdingsRaw h0m
  have htk : h0.ticker = tk := by simpa [roundHolding_ticker] using of_decide_eq_true hdec
  rw [htk] at hpos
  omega

lemma reportRow_ticker (l : List Transaction) (H : List Holding) (tk : String) :
    (reportRow l H tk).ticker = tk := rfl

lemma reportRow_unrealized (l : List Transaction) (H : List Holding) (tk : String) :
    (reportRow l H tk).unrealizedProfitLoss =
      ((H.find? (fun h => h.ticker = tk)).map (fun h => h.profitLoss)).getD 0 := rfl

lemma reportRow_realized (l : List Transaction) (H : List Holding) (tk : String) :
    (reportRow l H tk).realizedProfitLoss =
      sellRevenueOf l tk -
        (if 0 < avgBuyCostOf l tk ∧ 0 < soldSharesOf l tk then
          avgBuyCostOf l tk * ((soldSharesOf l tk : Int) : Rat)
        else 0) := rfl

lemma roundReportRow_ticker (r : ReportRow) : (roundReportRow r).ticker = r.ticker := rfl

lemma roundReportRow_unrealized (r : ReportRow) :
    (roundReportRow r).unrealizedProfitLoss = round2 r.unrealizedProfitLoss := rfl

lemma roundReportRow_realized (r : ReportRow) :
    (roundReportRow r).realizedProfitLoss = round2 r.realizedProfitLoss := rfl

lemma costBasisSold_eq {l : List Transaction} {tk : String} (hwf : WellFormed l) :
    (if 0 < avgBuyCostOf l tk ∧ 0 < soldSharesOf l tk then
        avgBuyCostOf l tk * ((soldSharesOf l tk : Int) : Rat)
      else 0) =
      avgBuyCostOf l tk * ((soldSharesOf l tk : Int) : Rat) := by
  by_cases hc : 0 < avgBuyCostOf l tk ∧ 0 < soldSharesOf l tk
  · rw [if_pos hc]
  · rw [if_neg hc]
    rcases not_and_or.mp hc with h1 | h2
    · have hz : avgBuyCostOf l tk = 0 :=
        le_antisymm (not_lt.mp h1) (avgBuyCostOf_nonneg hwf)
      rw [hz, zero_mul]
    · have hz : soldSharesOf l tk = 0 :=
        le_antisymm (not_lt.mp h2) (soldSharesOf_nonneg hwf)
      rw [hz]
      simp

lemma map_ticker_report_rows (l : List Transaction) :
    ((tickersOf l).map (reportRow l (get_current_holdings l))).map (fun r => r.ticker) =
      tickersOf l := by
  rw [List.map_map]
  exact List.map_id' _

/-- C5: the Profit/Loss Report has exactly one row per ticker appearing
anywhere in the ledger (also fully exited ones), and rows whose ticker has
nonpositive net shares carry unrealized profit/loss 0 while realized
profit/loss is still sell revenue minus average buy cost times sold
shares. -/
theorem profit_loss_report_rows (l : List Transaction) (hwf : WellFormed l) :
    ((generate_profit_loss_report l).map (fun r => r.ticker)).Nodup ∧
      (∀ tk : String,
        (∃ r ∈ generate_profit_loss_report l, r.ticker = tk) ↔ tk ∈ l.map (fun t => t.ticker)) ∧
      (∀ r ∈ generate_profit_loss_report l, netShares l r.ticker ≤ 0 →
        r.unrealizedProfitLoss = 0 ∧
        r.realizedProfitLoss =
          round2 (sellRevenueOf l r.ticker -
            avgBuyCostOf l r.ticker * ((soldSharesOf l r.ticker : Int) : Rat))) := by
  have hmapt : (generate_profit_loss_report l).map (fun r => r.ticker) =
      (((tickersOf l).map (reportRow l (get_current_holdings l))).mergeSort
          (fun a b => decide (b.totalProfitLoss ≤ a.totalProfitLoss))).map (fun r => r.ticker) := by
    unfold generate_profit_loss_report
    rw [List.map_map]
    rfl
  have hperm :
      ((((tickersOf l).map (reportRow l (get_current_holdings l))).mergeSort
          (fun a b => decide (b.totalProfitLoss ≤ a.totalProfitLoss))).map (fun r => r.ticker)).Perm
        (tickersOf l) := by
    have h1 := (List.mergeSort_perm ((tickersOf l).map (reportRow l (get_current_holdings l)))
      (fun a b => decide (b.totalProfitLoss ≤ a.totalProfitLoss))).map (fun r => r.ticker)
    rw [map_ticker_report_rows] at h1
    exact h1
  refine ⟨?_, ?_, ?_⟩
  · rw [hmapt]
    exact hperm.nodup_iff.mpr (nodup_tickersOf l)
  · intro tk
    have hmem : (∃ r ∈ generate_profit_loss_report l, r.ticker = tk) ↔
        tk ∈ (generate_profit_loss_report l).map (fun r => r.ticker) := by
      rw [List.mem_map]
    rw [hmem, hmapt, hperm.mem_iff, mem_tickersOf, List.mem_map]
  · intro r hr hnet
    unfold generate_profit_loss_report at hr
    rcases List.mem_map.mp hr with ⟨r0, hr0, rfl⟩
    have hr0m := List.mem_mergeSort.mp hr0
    rcases List.mem_map.mp hr0m with ⟨tk, _, rfl⟩
    rw [roundReportRow_ticker, reportRow_ticker] at hnet
    constructor
    · rw [roundReportRow_unrealized, reportRow_unrealized,
        find?_get_current_holdings_eq_none hnet]
      exact round2_zero
    · rw [roundReportRow_ticker, reportRow_ticker, roundReportRow_realized, reportRow_realized,
        costBasisSold_eq hwf]

unseal Rat.add Rat.mul Rat.inv Rat.sub List.merge List.mergeSort in
/-- C5 witness: a position bought for 1500 and fully sold for 1550 still
gets a report row, with unrealized 0 and realized 50. -/
theorem profit_loss_report_rows_witness :
    WellFormed exC5 ∧ rExited ∈ generate_profit_loss_report exC5 ∧
      netShares exC5 rExited.ticker ≤ 0 ∧
      (rExited.unrealizedProfitLoss = 0 ∧
        rExited.realizedProfitLoss =
          round2 (sellRevenueOf exC5 rExited.ticker -
            avgBuyCostOf exC5 rExited.ticker * ((soldSharesOf exC5 rExited.ticker : Int) : Rat))) :=
  ⟨by decide, by decide, by decide,
   (profit_loss_report_rows exC5 (by decide)).2.2 rExited (by decide) (by decide)⟩

lemma str_append_ne_empty (a b : String) (ha : a ≠ "") : a ++ b ≠ "" := by
  intro h
  have hd := congrArg String.data h
  rw [String.data_append] at hd
  rcases List.append_eq_nil.mp hd with ⟨ha2, -⟩
  exact ha (String.ext_iff.mpr (by simpa using ha2))

lemma find?_eq_some_of_nodup_ticker {hs : List Holding} {h : Holding} {tk : String}
    (hn : (hs.map (fun x => x.ticker)).Nodup) (hm : h ∈ hs) (htk : h.ticker = tk) :
    hs.find? (fun x => x.ticker = tk) = some h := by
  induction hs with
  | nil => cases hm
  | cons a as ih =>
    rcases List.mem_cons.mp hm with rfl | hmem
    · rw [List.find?_cons_of_pos]
      exact decide_eq_true htk
    · have hhead : a.ticker ∉ as.map (fun x => x.ticker) :=
        (List.nodup_cons.mp (by simpa using hn)).1
      have htail : (as.map (fun x => x.ticker)).Nodup :=
        (List.nodup_cons.mp (by simpa using hn)).2
      have hne : ¬ a.ticker = tk := by
        intro he
        apply hhead
        rw [he, ← htk]
        exact List.mem_map.mpr ⟨h, hmem, rfl⟩
      rw [List.find?_cons_of_neg]
      · exact ih htail hmem
      · simpa using hne

unseal List.merge List.mergeSort in
/-- C6: the code crashes where the claim promises a rejection message.  For
the fully exited, non-empty ledger `exC10` the holdings frame has no rows
and — being `pd.DataFrame([])` — no `Ticker` column, so validating the
well-formed Sell proposal `sellAfterExit` against it hits the missing
column (`none`, the `KeyError`) instead of returning `(false, message)`. -/
theorem validate_transaction_keyerror_on_exited_portfolio :
    exC10 ≠ [] ∧ (holdingsFrame exC10).rows = [] ∧
      (holdingsFrame exC10).hasTickerColumn = false ∧
      sellAfterExit.transactionType = "Sell" ∧ sellAfterExit.ticker ≠ "" ∧
      0 < sellAfterExit.quantity ∧
      validate_transaction sellAfterExit (holdingsFrame exC10) = none :=
  ⟨by decide, by decide, by decide, by decide, by decide, by decide, by decide⟩

unseal Rat.add Rat.mul Rat.inv Rat.sub List.merge List.mergeSort in
/-- C7 counterexample: a Buy proposal with price 0 (non-positive) and
otherwise valid fields is accepted by `validate_transaction`, so validation
does not reject non-positive prices. -/
theorem validate_transaction_accepts_nonpositive_price :
    zeroPriceTxn.price ≤ 0 ∧
      validate_transaction zeroPriceTxn (holdingsFrame []) = some (true, "") :=
  ⟨by decide, by decide⟩

/-- C7 as amended: `validate_transaction` never examines the price field —
its verdict and message are unchanged under any replacement of the price
(the price > 0 check lives in the data-entry form layer, not in transaction
validation). -/
theorem validate_transaction_ignores_price (t : Transaction) (hs : HoldingsFrame) (p : Rat) :
    validate_transaction { t with price := p } hs = validate_transaction t hs := by
  cases t
  rfl

lemma roundHolding_totalCost (h : Holding) : (roundHolding h).totalCost = round2 h.totalCost := rfl

lemma roundHolding_currentValue (h : Holding) :
    (roundHolding h).currentValue = round2 h.currentValue := rfl

lemma totalCost_nonneg_of_mem {l : List Transaction} {h : Holding} (hwf : WellFormed l)
    (hm : h ∈ holdingsRaw l) : 0 ≤ h.totalCost := by
  rcases mem_holdingsRaw.mp hm with ⟨tk, _, hpos, rfl⟩
  rw [holdingRow_totalCost]
  apply mul_nonneg (avgBuyCostOf_nonneg hwf)
  exact_mod_cast le_of_lt hpos

/-- C8: no division by zero: each raw holdings row's return percentage is
profit/loss over total cost times 100 when the total cost is nonzero and 0
when it is zero, and the summary's return percentage follows the same rule
with total invested. -/
theorem return_pct_division_guard (l : List Transaction) (hwf : WellFormed l) :
    (∀ h ∈ holdingsRaw l,
      h.returnPct = if h.totalCost = 0 then 0 else h.profitLoss / h.totalCost * 100) ∧
      ((get_portfolio_summary l).return_pct =
        if (get_portfolio_summary l).total_invested = 0 then 0
        else (get_portfolio_summary l).profit_loss / (get_portfolio_summary l).total_invested *
          100) := by
  constructor
  · intro h hm
    have hnn := totalCost_nonneg_of_mem hwf hm
    rcases mem_holdingsRaw.mp hm with ⟨tk, _, hpos, rfl⟩
    rw [holdingRow_totalCost] at hnn
    rw [holdingRow_returnPct, holdingRow_totalCost]
    by_cases hz : avgBuyCostOf l tk * ((netShares l tk : Int) : Rat) = 0
    · rw [hz]
      simp
    · rw [if_neg hz, if_pos (lt_of_le_of_ne hnn (Ne.symm hz))]
  · by_cases hl : l = []
    · subst hl
      simp [get_portfolio_summary]
    · have hnn : (0 : Rat) ≤ ((get_current_holdings l).map (fun h => h.totalCost)).sum := by
        apply List.sum_nonneg
        intro x hx
        rcases List.mem_map.mp hx with ⟨h, hm, rfl⟩
        rcases mem_get_current_holdings.mp hm with ⟨h0, h0m, rfl⟩
        rw [roundHolding_totalCost]
        exact round2_nonneg (totalCost_nonneg_of_mem hwf h0m)
      unfold get_portfolio_summary
      rw [if_neg hl]
      dsimp only
      by_cases hz : ((get_current_holdings l).map (fun h => h.totalCost)).sum = 0
      · rw [hz]
        simp
      · rw [if_neg hz, if_pos (lt_of_le_of_ne hnn (Ne.symm hz))]

unseal Rat.add Rat.mul Rat.inv Rat.sub List.merge List.mergeSort in
/-- C8 witness: on the spec's worked example the summary's return
percentage equals 35 / 1050 × 100. -/
theorem return_pct_division_guard_witness :
    WellFormed ex1 ∧
      ((get_portfolio_summary ex1).return_pct =
        if (get_portfolio_summary ex1).total_invested = 0 then 0
        else (get_portfolio_summary ex1).profit_loss / (get_portfolio_summary ex1).total_invested *
          100) :=
  ⟨by decide, (return_pct_division_guard ex1 (by decide)).2⟩

unseal Rat.add Rat.mul Rat.inv Rat.sub List.merge List.mergeSort in
/-- C9: the summary's totals are sums of the per-holding values already
rounded to 2 decimals by the Holdings Calculator, and on `exC9` that sum
(1.34) differs from the full-precision sum rounded once at output (1.33). -/
theorem summary_sums_rounded_holdings :
    (∀ l : List Transaction,
      (get_portfolio_summary l).total_invested =
        ((get_current_holdings l).map (fun h => h.totalCost)).sum ∧
      (get_portfolio_summary l).current_value =
        ((get_current_holdings l).map (fun h => h.currentValue)).sum) ∧
      (get_portfolio_summary exC9).total_invested ≠
        round2 (((holdingsRaw exC9).map (fun h => h.totalCost)).sum) := by
  constructor
  · intro l
    by_cases hl : l = []
    · subst hl
      constructor <;>
        simp [get_portfolio_summary, get_current_holdings, holdingsRaw, tickersOf]
    · unfold get_portfolio_summary
      rw [if_neg hl]
      exact ⟨rfl, rfl⟩
  · decide

/-- C10: at any history point whose date-restricted sub-ledger leaves every
ticker with nonpositive net shares, the reported portfolio value is 0 —
realized sale proceeds never enter the historical series. -/
theorem exited_position_value_zero (l : List Transaction) :
    ∀ p ∈ calculate_historical_performance l,
      (∀ tk ∈ ((sortByDate l).filter (fun t => decide (t.date ≤ p.1))).map (fun t => t.ticker),
        netShares ((sortByDate l).filter (fun t => decide (t.date ≤ p.1))) tk ≤ 0) →
      p.2 = 0 := by
  intro p hp hall
  unfold calculate_historical_performance at hp
  rcases List.mem_map.mp hp with ⟨d, _, rfl⟩
  dsimp only at hall ⊢
  have hraw : holdingsRaw ((sortByDate l).filter (fun t => decide (t.date ≤ d))) = [] := by
    unfold holdingsRaw
    rw [List.filterMap_eq_nil_iff]
    intro tk htk
    rw [if_neg]
    rcases mem_tickersOf.mp htk with ⟨t, ht, htk2⟩
    have hle := hall tk (List.mem_map.mpr ⟨t, ht, htk2⟩)
    omega
  unfold holdingsValue get_current_holdings
  rw [hraw]
  rfl

unseal Rat.add Rat.mul Rat.inv Rat.sub List.merge List.mergeSort in
/-- C10 witness: after buying one share for 10 and selling it for 12, the
last history point of `exC10` is valued 0 despite the realized gain. -/
theorem exited_position_value_zero_witness :
    (((calculate_historical_performance exC10).getLast?).getD ((0 : Nat), (37 : Rat))).2 = 0 :=
  exited_position_value_zero exC10
    (((calculate_historical_performance exC10).getLast?).getD ((0 : Nat), (37 : Rat)))
    (by decide) (by decide)

end StockJournal
